import Mathlib

/-!
Shallow embedding of the reactive dependency-tracking core of the repository
(src/core/observer): the Dep / Watcher pair (dep.js, watcher.js), the reactive
property accessors and the del operation (index.js), and the update scheduler
(scheduler.js).  JavaScript values relevant to the claims are modelled by a
small inductive type with explicit object identity; watcher and dep state is
modelled by explicit records, and the stateful methods become state-passing
functions mirroring the source line by line.
-/

/-- Model of the JavaScript values the observer code distinguishes: primitives
(compared by value under strict equality), NaN (the unique self-unequal value),
plain objects and arrays (compared by reference identity), and undefined. -/
inductive Value : Type where
  | undef : Value
  | prim : Int → Value
  | nan : Value
  | obj : Nat → Value
  | arr : Nat → Value
deriving DecidableEq, Repr

/-- JavaScript strict equality (===) on modelled values.  Objects and arrays
compare by identity; NaN is not strictly equal to itself. -/
def strictEq : Value → Value → Bool
  | Value.undef, Value.undef => true
  | Value.prim a, Value.prim b => a == b
  | Value.nan, Value.nan => false
  | Value.obj a, Value.obj b => a == b
  | Value.arr a, Value.arr b => a == b
  | _, _ => false

/-- The isObject helper from src/shared/util.js: true for non-null values of
typeof object, i.e. plain objects and arrays in this model. -/
def isObject : Value → Bool
  | Value.obj _ => true
  | Value.arr _ => true
  | _ => false

/-- Whether observe(value) would attach an Observer: value is a plain object
or an array (the extensibility / VNode / _isVue side conditions are taken to
hold for the values in this model). -/
def isContainer : Value → Bool
  | Value.obj _ => true
  | Value.arr _ => true
  | _ => false

/- ----------------------------------------------------------------------- -/
/- Watcher.run (watcher.js lines 248-277)                                   -/
/- ----------------------------------------------------------------------- -/

/-- The fields of a Watcher that Watcher.run consults: the active flag, the
deep and user options, and the stored value this.value. -/
structure RunWatcher : Type where
  active : Bool
  deep : Bool
  user : Bool
  value : Value
deriving DecidableEq, Repr

/-- Result of Watcher.run: the updated watcher state, and the callback
invocation this.cb(value, oldValue) if one was performed. -/
structure RunResult : Type where
  st : RunWatcher
  fired : Option (Value × Value)
deriving DecidableEq, Repr

/-- Watcher.run.  The value obtained from this.get() is passed as the
parameter v.  If the watcher is inactive nothing happens; otherwise the
callback fires exactly when v !== this.value, or isObject(v), or this.deep,
in which case this.value is replaced by v and the callback receives
(v, oldValue). -/
def run (w : RunWatcher) (v : Value) : RunResult :=
  if w.active then
    if !strictEq v w.value || isObject v || w.deep then
      { st := { w with value := v }, fired := some (v, w.value) }
    else
      { st := w, fired := none }
  else
    { st := w, fired := none }

/- ----------------------------------------------------------------------- -/
/- defineReactive's reactiveSetter (index.js lines 179-296)                 -/
/- ----------------------------------------------------------------------- -/

/-- State of one reactive property installed by defineReactive (with the
shallow parameter unset, as in Observer.walk).  A property may have been
defined over a pre-existing accessor pair; the pre-existing getter/setter are
modelled as reading/writing the backing field.  val is the closure variable
of defineReactive, and childObserved records whether the current value is
wrapped by a child Observer (childOb). -/
structure RProp : Type where
  hasGetter : Bool
  hasSetter : Bool
  backing : Value
  val : Value
  childObserved : Bool
deriving DecidableEq, Repr

/-- The value the property currently reports: getter ? getter.call(obj) : val. -/
def propValue (p : RProp) : Value :=
  if p.hasGetter then p.backing else p.val

/-- The reactiveSetter accessor (index.js lines 267-294).  Returns the updated property
state and the number of dep.notify() calls performed.  Mirrors the source:
short-circuit when newVal === value or both are NaN; return without storing
when the property has a getter but no setter (#7981); otherwise store through
the setter or into val, recompute childOb := observe(newVal), and notify. -/
def reactiveSetter (p : RProp) (newVal : Value) : RProp × Nat :=
  let value := propValue p
  if strictEq newVal value || (!strictEq newVal newVal && !strictEq value value) then
    (p, 0)
  else if p.hasGetter && !p.hasSetter then
    (p, 0)
  else
    let p1 := if p.hasSetter then { p with backing := newVal } else { p with val := newVal }
    ({ p1 with childObserved := isContainer newVal }, 1)

/- ----------------------------------------------------------------------- -/
/- del (index.js lines 356-395)                                             -/
/- ----------------------------------------------------------------------- -/

/-- State of a del target: either an array (elems) or a plain object with its
own keys (ownKeys) and keys found only on its prototype chain (protoKeys,
never consulted by hasOwn), plus the _isVue flag and the attached Observer
with its vmCount.  Keys are modelled as naturals. -/
structure DelTarget : Type where
  isArray : Bool
  elems : List Value
  ownKeys : List Nat
  protoKeys : List Nat
  isVue : Bool
  hasOb : Bool
  vmCount : Nat
deriving DecidableEq, Repr

/-- The del operation (index.js lines 356-395).  Returns the updated target and the number
of ob.dep.notify() calls.  For arrays with a valid index the intercepted
splice removes the element and notifies when the array is observed; for
objects: refuse on Vue instances and root data objects, return if the key is
not an own property (hasOwn), otherwise delete it and notify when observed. -/
def del (t : DelTarget) (k : Nat) : DelTarget × Nat :=
  if t.isArray then
    ({ t with elems := t.elems.eraseIdx k }, if t.hasOb then 1 else 0)
  else if t.isVue || (t.hasOb && decide (0 < t.vmCount)) then
    (t, 0)
  else if ¬ (k ∈ t.ownKeys) then
    (t, 0)
  else
    ({ t with ownKeys := t.ownKeys.erase k }, if t.hasOb then 1 else 0)

/- ----------------------------------------------------------------------- -/
/- Dependency tracking: Dep.addSub / Dep.removeSub / Watcher.addDep /       -/
/- Watcher.cleanupDeps / Watcher.get (dep.js, watcher.js)                   -/
/- ----------------------------------------------------------------------- -/

/-- Joint state of one watcher's dependency bookkeeping and of every Dep's
subscriber list.  subs d is the subs array of the Dep with id d, holding
watcher ids; deps / newDeps are the watcher's Dep lists (by id), and
depIds / newDepIds its id sets, modelled as duplicate-free lists in insertion
order. -/
structure Sys : Type where
  subs : Nat → List Nat
  deps : List Nat
  newDeps : List Nat
  depIds : List Nat
  newDepIds : List Nat

/-- The system state of a freshly constructed watcher: no subscriptions
anywhere. -/
def initSys : Sys :=
  { subs := fun _ => [], deps := [], newDeps := [], depIds := [], newDepIds := [] }

/-- Watcher.addDep (watcher.js lines 176-191) for watcher w on the Dep with
id d.  Skip when d is already in newDepIds; otherwise record d in newDepIds
and newDeps, and additionally Dep.addSub (append w to subs d) when d is not
in the previous pass's depIds either. -/
def addDep (w : Nat) (s : Sys) (d : Nat) : Sys :=
  if d ∈ s.newDepIds then s
  else
    let s1 : Sys := { s with newDepIds := s.newDepIds ++ [d], newDeps := s.newDeps ++ [d] }
    if d ∈ s1.depIds then s1
    else { s1 with subs := fun x => if x = d then s1.subs x ++ [w] else s1.subs x }

/-- Dep.removeSub for watcher w on Dep d, as a transformation of the
subscriber table: remove (the first occurrence of) w from subs d. -/
def removeSubFrom (w : Nat) (f : Nat → List Nat) (d : Nat) : Nat → List Nat :=
  fun x => if x = d then (f x).erase w else f x

/-- One iteration of the cleanup loop of Watcher.cleanupDeps: dep d is left
alone when its id is in newDepIds, otherwise dep.removeSub(this). -/
def cleanupStep (w : Nat) (nids : List Nat) (f : Nat → List Nat) (d : Nat) : Nat → List Nat :=
  if d ∈ nids then f else removeSubFrom w f d

/-- Watcher.cleanupDeps (watcher.js lines 199-221): walk deps from the last
element down, unsubscribing from every Dep whose id is not in newDepIds; then
swap newDepIds into depIds and newDeps into deps, clearing the scratch
sets. -/
def cleanupDeps (w : Nat) (s : Sys) : Sys :=
  { subs := s.deps.reverse.foldl (cleanupStep w s.newDepIds) s.subs
    deps := s.newDeps
    newDeps := []
    depIds := s.newDepIds
    newDepIds := [] }

/-- The dependency-tracking effect of Watcher.get (watcher.js lines 134-169)
for watcher w: under pushTarget(this), the getter's reactive reads trigger
dep.depend() and hence addDep in read order; the finally clause then runs
cleanupDeps.  reads is the list of Dep ids the getter touches. -/
def runGetter (w : Nat) (reads : List Nat) (s : Sys) : Sys :=
  cleanupDeps w (reads.foldl (addDep w) s)

/-- The notify snapshot of Dep d: dep.notify() iterates a stable slice of
subs d, invoking update() on each subscriber in order. -/
def notifyList (s : Sys) (d : Nat) : List Nat :=
  s.subs d

/- ----------------------------------------------------------------------- -/
/- Watcher.get with a throwing getter (watcher.js lines 134-169)            -/
/- ----------------------------------------------------------------------- -/

/-- Watcher fields relevant to the error path of Watcher.get: the user option,
the stored this.value (which get never assigns), and the dependency state. -/
structure GetWatcher : Type where
  user : Bool
  value : Value
  sys : Sys

/-- Outcome of calling this.getter: a normal result, or a thrown exception;
in both cases the reactive reads performed before returning or throwing are
recorded. -/
inductive GetterOutcome : Type where
  | ok : List Nat → Value → GetterOutcome
  | err : List Nat → GetterOutcome

/-- Watcher.get for watcher id w.  Returns the result of get (the value, or
the propagated exception), whether the error was routed to handleError, and
the watcher state afterwards.  The finally clause (popTarget and cleanupDeps)
runs on every path; a caught user-watcher error leaves value undefined, a
non-user error propagates; this.value is never assigned by get. -/
def watcherGet (w : Nat) (st : GetWatcher) (o : GetterOutcome) :
    Except Unit Value × Bool × GetWatcher :=
  match o with
  | GetterOutcome.ok reads v =>
      (Except.ok v, false, { st with sys := runGetter w reads st.sys })
  | GetterOutcome.err reads =>
      let st1 := { st with sys := runGetter w reads st.sys }
      if st.user then (Except.ok Value.undef, true, st1)
      else (Except.error (), false, st1)

/- ----------------------------------------------------------------------- -/
/- Scheduler (scheduler.js)                                                 -/
/- ----------------------------------------------------------------------- -/

/-- The MAX_UPDATE_COUNT constant (scheduler.js line 20). -/
def MAX_UPDATE_COUNT : Nat := 100

/-- Scheduler state: the pending queue of watcher ids (a watcher's id is also
its sort key), the has membership set (ids marked true), the circular
counters of the dev-mode runaway check, the current flush index, and the
flushing / waiting flags, plus the activatedChildren list filled by
queueActivatedComponent. -/
structure Sched : Type where
  queue : List Nat
  has : List Nat
  circular : Nat → Nat
  index : Nat
  flushing : Bool
  waiting : Bool
  activatedChildren : List Nat

/-- The descending scan of queueWatcher's splice branch, at current position
i: while i > index and queue[i].id > watcher.id, decrement i; the insertion
position is the final i + 1. -/
def insertPosAux (q : List Nat) (index wid : Nat) : Nat → Nat
  | 0 => 1
  | i + 1 =>
      if index < i + 1 ∧ wid < q.getD (i + 1) 0 then insertPosAux q index wid i
      else i + 2

/-- The insertion position computed by queueWatcher while flushing: start the
scan at queue.length - 1 (an empty queue inserts at 0). -/
def insertPos (q : List Nat) (index wid : Nat) : Nat :=
  match q.length with
  | 0 => 0
  | n + 1 => insertPosAux q index wid n

/-- Model of queue.splice(p, 0, a): insert a at position p (appending when p exceeds
the length, as splice does). -/
def insertAt : Nat → Nat → List Nat → List Nat
  | 0, a, l => a :: l
  | _ + 1, a, [] => [a]
  | n + 1, a, x :: l => x :: insertAt n a l

/-- The queueWatcher operation (scheduler.js lines 184-224) for the watcher with id wid.
No-op when has[id] is set; otherwise mark it, then append to the queue when
not flushing, or splice at the scanned position when flushing; finally set
waiting (the nextTick(flushSchedulerQueue) registration is external). -/
def queueWatcher (wid : Nat) (s : Sched) : Sched :=
  if wid ∈ s.has then s
  else
    let s1 : Sched := { s with has := wid :: s.has }
    let s2 : Sched :=
      if !s1.flushing then { s1 with queue := s1.queue ++ [wid] }
      else { s1 with queue := insertAt (insertPos s1.queue s1.index wid) wid s1.queue }
    if !s2.waiting then { s2 with waiting := true } else s2

/-- The queueWatcher calls a watcher's run() performs (writes made by the
callback notify deps, whose subscribers re-enqueue themselves). -/
def runEffects (ids : List Nat) (s : Sched) : Sched :=
  ids.foldl (fun t i => queueWatcher i t) s

/-- The flush loop of flushSchedulerQueue (scheduler.js lines 98-127), in
diagnostic (dev) mode.  effect gives, per watcher id, the ids enqueued during
that watcher's run().  Each iteration clears has[id], runs the watcher, and
performs the circular-update check: if the id is back in has immediately
after its own run, its circular counter increments, and when it exceeds
MAX_UPDATE_COUNT the loop warns and breaks.  Returns the loop-exit state, the
trace of run watcher ids in order, and whether the runaway warning fired.
fuel bounds the iterations of this (in general non-terminating) loop. -/
def flushLoop (effect : Nat → List Nat) : Nat → Sched → Sched × List Nat × Bool
  | 0, s => (s, [], false)
  | fuel + 1, s =>
      if s.index < s.queue.length then
        let id := s.queue.getD s.index 0
        let s2 := runEffects (effect id) { s with has := s.has.erase id }
        if id ∈ s2.has then
          let c := s2.circular id + 1
          let s3 : Sched := { s2 with circular := fun x => if x = id then c else s2.circular x }
          if MAX_UPDATE_COUNT < c then (s3, [id], true)
          else
            let r := flushLoop effect fuel { s3 with index := s3.index + 1 }
            (r.1, id :: r.2.1, r.2.2)
        else
          let r := flushLoop effect fuel { s2 with index := s2.index + 1 }
          (r.1, id :: r.2.1, r.2.2)
      else (s, [], false)

/-- Insert a into an ascending list, keeping it sorted (helper of the
queue.sort((a, b) => a.id - b.id) call at the start of a flush). -/
def insSorted (a : Nat) : List Nat → List Nat
  | [] => [a]
  | b :: t => if a ≤ b then a :: b :: t else b :: insSorted a t

/-- Model of queue.sort((a, b) => a.id - b.id): sort the queue ascending by id. -/
def sortQueue : List Nat → List Nat
  | [] => []
  | a :: t => insSorted a (sortQueue t)

/-- The vm-related fields callUpdatedHooks reads off a watcher: the owning
vm, whether the watcher is that vm's render watcher (vm._watcher === watcher),
and the vm's mounted / destroyed flags. -/
structure UpdWatcher : Type where
  vmId : Nat
  isVmRenderWatcher : Bool
  vmMounted : Bool
  vmDestroyed : Bool
deriving DecidableEq, Repr

/-- The condition under which callUpdatedHooks fires the updated hook for one
queue entry, returning the vm it fires on. -/
def updEmit (w : UpdWatcher) : Option Nat :=
  if w.isVmRenderWatcher && w.vmMounted && !w.vmDestroyed then some w.vmId else none

/-- The callUpdatedHooks loop (scheduler.js lines 148-157): let i = queue.length;
while (i--) fire the updated hook on queue[i]'s vm when the entry is that
vm's render watcher and the vm is mounted and not destroyed.  Returns the vms
hooked, in invocation order (the recursion emits the tail of the list — i.e.
the entries processed first by the descending loop — before the head). -/
def callUpdatedHooks : List UpdWatcher → List Nat
  | [] => []
  | w :: rest => callUpdatedHooks rest ++ (updEmit w).toList

/-- The callActivatedHooks loop (scheduler.js lines 171-176): for i from 0 to
queue.length - 1, activate queue[i].  Returns the vms activated in invocation
order. -/
def callActivatedHooks : List Nat → List Nat
  | [] => []
  | vm :: rest => vm :: callActivatedHooks rest

/-- The scheduler state after resetSchedulerState (scheduler.js lines
34-41). -/
def emptySched : Sched :=
  { queue := [], has := [], circular := fun _ => 0, index := 0,
    flushing := false, waiting := false, activatedChildren := [] }

/-- The state at the top of flushSchedulerQueue: flushing set, queue sorted
ascending by id, index starting at 0. -/
def startFlush (s : Sched) : Sched :=
  { s with flushing := true, queue := sortQueue s.queue, index := 0 }

/-- Observable outcome of one whole flushSchedulerQueue call. -/
structure FlushOut : Type where
  finalState : Sched
  trace : List Nat
  warned : Bool
  activatedCalls : List Nat
  updatedCalls : List Nat

/-- The flushSchedulerQueue operation (scheduler.js lines 79-145): set flushing, sort the
queue, run the flush loop, snapshot activatedChildren and the queue, reset
the scheduler state, then invoke the activated hooks on the activated
snapshot and the updated hooks on the queue snapshot.  meta maps a watcher id
to the vm data callUpdatedHooks inspects. -/
def flushScheduler (effect : Nat → List Nat) (meta : Nat → UpdWatcher)
    (fuel : Nat) (s : Sched) : FlushOut :=
  let r := flushLoop effect fuel (startFlush s)
  let activatedQueue := r.1.activatedChildren
  let updatedQueue := r.1.queue
  { finalState := emptySched
    trace := r.2.1
    warned := r.2.2
    activatedCalls := callActivatedHooks activatedQueue
    updatedCalls := callUpdatedHooks (updatedQueue.map meta) }

/- ----------------------------------------------------------------------- -/
/- Invariants of the dependency bookkeeping                                 -/
/- ----------------------------------------------------------------------- -/

/-- Invariant of watcher w's bookkeeping that holds at every point of an
evaluation pass: the Dep lists carry exactly the ids of the id sets, the id
sets are duplicate-free, and w occurs in a Dep's subscriber list exactly once
when the Dep is in the old or the new id set and not at all otherwise. -/
def During (w : Nat) (s : Sys) : Prop :=
  s.deps = s.depIds ∧ s.newDeps = s.newDepIds ∧ s.depIds.Nodup ∧ s.newDepIds.Nodup ∧
    ∀ d, (s.subs d).count w = if d ∈ s.depIds ∨ d ∈ s.newDepIds then 1 else 0

/-- Invariant of watcher w's bookkeeping between evaluation passes: the
scratch sets are empty and w subscribes exactly to the Deps recorded in
depIds, once each. -/
def Between (w : Nat) (s : Sys) : Prop :=
  s.newDeps = [] ∧ s.newDepIds = [] ∧ s.deps = s.depIds ∧ s.depIds.Nodup ∧
    ∀ d, (s.subs d).count w = if d ∈ s.depIds then 1 else 0

lemma Between.during {w : Nat} {s : Sys} (h : Between w s) : During w s := by
  obtain ⟨h1, h2, h3, h4, h5⟩ := h
  refine ⟨h3, by rw [h1, h2], h4, by rw [h2]; exact List.nodup_nil, fun d => ?_⟩
  rw [h2]
  simpa using h5 d

lemma addDep_eq_of_mem {s : Sys} {d : Nat} (w : Nat) (h : d ∈ s.newDepIds) :
    addDep w s d = s := by
  simp [addDep, h]

lemma addDep_eq_of_mem_depIds {s : Sys} {d : Nat} (w : Nat)
    (h1 : d ∉ s.newDepIds) (h2 : d ∈ s.depIds) :
    addDep w s d =
      { s with newDepIds := s.newDepIds ++ [d], newDeps := s.newDeps ++ [d] } := by
  simp [addDep, h1, h2]

lemma addDep_eq_of_not_mem {s : Sys} {d : Nat} (w : Nat)
    (h1 : d ∉ s.newDepIds) (h2 : d ∉ s.depIds) :
    addDep w s d =
      { s with newDepIds := s.newDepIds ++ [d], newDeps := s.newDeps ++ [d],
               subs := fun x => if x = d then s.subs x ++ [w] else s.subs x } := by
  simp [addDep, h1, h2]

lemma addDep_deps (w : Nat) (s : Sys) (d : Nat) : (addDep w s d).deps = s.deps := by
  by_cases h1 : d ∈ s.newDepIds
  · rw [addDep_eq_of_mem w h1]
  · by_cases h2 : d ∈ s.depIds
    · rw [addDep_eq_of_mem_depIds w h1 h2]
    · rw [addDep_eq_of_not_mem w h1 h2]

lemma addDep_depIds (w : Nat) (s : Sys) (d : Nat) : (addDep w s d).depIds = s.depIds := by
  by_cases h1 : d ∈ s.newDepIds
  · rw [addDep_eq_of_mem w h1]
  · by_cases h2 : d ∈ s.depIds
    · rw [addDep_eq_of_mem_depIds w h1 h2]
    · rw [addDep_eq_of_not_mem w h1 h2]

lemma addDep_newDepIds_mem (w : Nat) (s : Sys) (d x : Nat) :
    x ∈ (addDep w s d).newDepIds ↔ x ∈ s.newDepIds ∨ x = d := by
  by_cases h1 : d ∈ s.newDepIds
  · rw [addDep_eq_of_mem w h1]
    constructor
    · exact Or.inl
    · rintro (hx | rfl)
      · exact hx
      · exact h1
  · by_cases h2 : d ∈ s.depIds
    · rw [addDep_eq_of_mem_depIds w h1 h2]
      simp
    · rw [addDep_eq_of_not_mem w h1 h2]
      simp

lemma During.addDep {w : Nat} {s : Sys} (h : During w s) (d : Nat) :
    During w (addDep w s d) := by
  obtain ⟨hdd, hnn, hnd, hnn2, hc⟩ := h
  by_cases h1 : d ∈ s.newDepIds
  · rw [addDep_eq_of_mem w h1]
    exact ⟨hdd, hnn, hnd, hnn2, hc⟩
  · have hnodup : (s.newDepIds ++ [d]).Nodup := by
      rw [List.nodup_append]
      refine ⟨hnn2, List.nodup_singleton d, fun a ha hb => ?_⟩
      simp only [List.mem_singleton] at hb
      subst hb
      exact h1 ha
    by_cases h2 : d ∈ s.depIds
    · rw [addDep_eq_of_mem_depIds w h1 h2]
      refine ⟨hdd, by rw [hnn], hnd, hnodup, fun x => ?_⟩
      rw [hc x]
      by_cases hx : x = d
      · subst hx
        simp [h2]
      · simp [List.mem_append, hx]
    · rw [addDep_eq_of_not_mem w h1 h2]
      refine ⟨hdd, by rw [hnn], hnd, hnodup, fun x => ?_⟩
      by_cases hx : x = d
      · subst hx
        show (if x = x then s.subs x ++ [w] else s.subs x).count w = _
        rw [if_pos rfl, List.count_append, hc x, if_neg (by simp [h1, h2]),
          if_pos (Or.inr (by simp))]
        simp
      · show (if x = d then s.subs x ++ [w] else s.subs x).count w = _
        rw [if_neg hx, hc x]
        simp [List.mem_append, hx]

lemma foldl_addDep {w : Nat} :
    ∀ (reads : List Nat) (s : Sys), During w s →
      During w (reads.foldl (addDep w) s) ∧
      (reads.foldl (addDep w) s).deps = s.deps ∧
      (reads.foldl (addDep w) s).depIds = s.depIds ∧
      (∀ x, x ∈ (reads.foldl (addDep w) s).newDepIds ↔ x ∈ s.newDepIds ∨ x ∈ reads) := by
  intro reads
  induction reads with
  | nil => intro s h; exact ⟨h, rfl, rfl, by simp⟩
  | cons r t ih =>
      intro s h
      obtain ⟨ihD, ihdeps, ihdepIds, ihmem⟩ := ih (addDep w s r) (h.addDep r)
      refine ⟨ihD, ?_, ?_, fun x => ?_⟩
      · rw [List.foldl_cons, ihdeps, addDep_deps]
      · rw [List.foldl_cons, ihdepIds, addDep_depIds]
      · rw [List.foldl_cons, ihmem x, addDep_newDepIds_mem]
        constructor
        · rintro ((hx | rfl) | hx)
          · exact Or.inl hx
          · exact Or.inr (List.mem_cons_self _ _)
          · exact Or.inr (List.mem_cons_of_mem _ hx)
        · rintro (hx | hx)
          · exact Or.inl (Or.inl hx)
          · rcases List.mem_cons.1 hx with rfl | hx
            · exact Or.inl (Or.inr rfl)
            · exact Or.inr hx

lemma foldl_cleanupStep (w : Nat) (nids : List Nat) :
    ∀ (l : List Nat), l.Nodup → ∀ (f : Nat → List Nat) (x : Nat),
      (l.foldl (cleanupStep w nids) f) x =
        if x ∈ l ∧ x ∉ nids then (f x).erase w else f x := by
  intro l
  induction l with
  | nil => intro _ f x; simp
  | cons d t ih =>
      intro hnd f x
      have hd : d ∉ t := (List.nodup_cons.1 hnd).1
      have ht : t.Nodup := (List.nodup_cons.1 hnd).2
      rw [List.foldl_cons, ih ht]
      by_cases hx : x = d
      · subst hx
        have hxt : x ∉ t := hd
        by_cases hn : x ∈ nids
        · simp [cleanupStep, hn, hxt]
        · simp [cleanupStep, removeSubFrom, hn, hxt]
      · have hstep : (cleanupStep w nids f d) x = f x := by
          by_cases hn : d ∈ nids
          · simp [cleanupStep, hn]
          · simp [cleanupStep, removeSubFrom, hn, hx]
        rw [hstep]
        by_cases hxt : x ∈ t
        · simp [hxt, List.mem_cons, hx]
        · simp [hxt, List.mem_cons, hx]

lemma runGetter_between {w : Nat} (reads : List Nat) (s : Sys) (h : Between w s) :
    Between w (runGetter w reads s) ∧
      (∀ x, x ∈ (runGetter w reads s).depIds ↔ x ∈ reads) := by
  obtain ⟨⟨tdd, tnn, tnd, tnn2, tc⟩, tdeps, tdepIds, tmem⟩ :=
    foldl_addDep reads s h.during
  obtain ⟨hne, hni, hdd, hnd, hc⟩ := h
  have hmem : ∀ x, x ∈ (reads.foldl (addDep w) s).newDepIds ↔ x ∈ reads := by
    intro x
    rw [tmem x, hni]
    simp
  have hrevnd : (reads.foldl (addDep w) s).deps.reverse.Nodup := by
    rw [List.nodup_reverse, tdeps, hdd]
    exact hnd
  have hrg : (runGetter w reads s).depIds = (reads.foldl (addDep w) s).newDepIds := rfl
  constructor
  · refine ⟨rfl, rfl, tnn, tnn2, fun d => ?_⟩
    rw [hrg]
    show ((reads.foldl (addDep w) s).deps.reverse.foldl
        (cleanupStep w (reads.foldl (addDep w) s).newDepIds)
        (reads.foldl (addDep w) s).subs d).count w = _
    rw [foldl_cleanupStep w _ _ hrevnd]
    by_cases hin : d ∈ (reads.foldl (addDep w) s).deps.reverse ∧
        d ∉ (reads.foldl (addDep w) s).newDepIds
    · rw [if_pos hin]
      have hdeps : d ∈ (reads.foldl (addDep w) s).depIds := by
        rw [← tdd, ← List.mem_reverse]
        exact hin.1
      rw [List.count_erase_self, tc d, if_pos (Or.inl hdeps), if_neg hin.2]
    · rw [if_neg hin]
      push_neg at hin
      by_cases hnew : d ∈ (reads.foldl (addDep w) s).newDepIds
      · rw [tc d, if_pos (Or.inr hnew), if_pos hnew]
      · have hdeps : d ∉ (reads.foldl (addDep w) s).depIds := by
          intro hmemd
          exact hnew (hin (by rw [List.mem_reverse, tdd]; exact hmemd))
        rw [tc d, if_neg (not_or.2 ⟨hdeps, hnew⟩), if_neg hnew]
  · intro x
    rw [hrg]
    exact hmem x

/-- The Bool short-circuit condition of reactiveSetter:
newVal === value || (newVal !== newVal && value !== value). -/
def scBool (p : RProp) (v : Value) : Bool :=
  strictEq v (propValue p) || (!strictEq v v && !strictEq (propValue p) (propValue p))

/-- The location reactiveSetter stores into: through the pre-existing setter
(the backing field) when one exists, into the closure variable val
otherwise. -/
def storedVal (p : RProp) : Value :=
  if p.hasSetter then p.backing else p.val

/- ----------------------------------------------------------------------- -/
/- Claim theorems                                                           -/
/- ----------------------------------------------------------------------- -/

/-- C1: after a re-evaluation of a computation (Watcher.get, i.e. runGetter),
every Dep in the previous subscription set that was not read during the new
pass no longer has the watcher in its subscriber list, and the scratch sets
become the new live subscription sets (depIds holds exactly the ids read);
Deps that were read do carry the watcher.  Concretely, a watcher over a
conditional that first reads dep 0 and on re-evaluation reads dep 1 is
afterwards absent from dep 0's notify list and present in dep 1's. -/
theorem cleanupDeps_removes_stale_subscriptions :
    (∀ (w : Nat) (s : Sys) (reads : List Nat), Between w s →
        Between w (runGetter w reads s) ∧
        (∀ d, d ∈ (runGetter w reads s).depIds ↔ d ∈ reads) ∧
        (∀ d, d ∈ s.depIds → d ∉ reads → w ∉ (runGetter w reads s).subs d) ∧
        (∀ d, d ∈ reads → w ∈ (runGetter w reads s).subs d)) ∧
      (notifyList (runGetter 0 [1] (runGetter 0 [0] initSys)) 0 = [] ∧
        notifyList (runGetter 0 [1] (runGetter 0 [0] initSys)) 1 = [0]) := by
  constructor
  · intro w s reads h
    obtain ⟨hB, hmem⟩ := runGetter_between reads s h
    refine ⟨hB, hmem, ?_, ?_⟩
    · intro d _ hd
      have h0 : ((runGetter w reads s).subs d).count w = 0 := by
        rw [hB.2.2.2.2 d, if_neg (fun hx => hd ((hmem d).1 hx))]
      exact List.count_eq_zero.1 h0
    · intro d hd
      have h1 : ((runGetter w reads s).subs d).count w = 1 := by
        rw [hB.2.2.2.2 d, if_pos ((hmem d).2 hd)]
      exact List.count_pos_iff.1 (by rw [h1]; exact Nat.one_pos)
  · exact ⟨by decide, by decide⟩

/-- Witness for C1: the concrete two-pass scenario, with the hypotheses of
the general part discharged at the initial watcher state. -/
theorem cleanupDeps_removes_stale_subscriptions_witness :
    0 ∉ (runGetter 0 [1] (runGetter 0 [0] initSys)).subs 0 ∧
      0 ∈ (runGetter 0 [1] (runGetter 0 [0] initSys)).subs 1 := by
  have h0 : Between 0 initSys :=
    ⟨rfl, rfl, rfl, List.nodup_nil, fun d => by simp [initSys]⟩
  have h1 := (cleanupDeps_removes_stale_subscriptions.1 0 initSys [0] h0).1
  exact ⟨(cleanupDeps_removes_stale_subscriptions.1 0 (runGetter 0 [0] initSys) [1] h1).2.2.1
      0 (by decide) (by decide),
    (cleanupDeps_removes_stale_subscriptions.1 0 (runGetter 0 [0] initSys) [1] h1).2.2.2
      1 (by decide)⟩

/-- C4: a computation occurs at most once in any Dep's subscriber list.
addDep ignores a Dep already in the scratch id set, records without addSub a
Dep absent from the scratch set but present in the previous pass's set, and
appends the watcher to the subscriber list only when the id is in neither;
consequently an evaluation pass with arbitrary (possibly repeating) reads
leaves the watcher's count in every subscriber list at most 1. -/
theorem watcher_subscribes_at_most_once :
    (∀ (w : Nat) (s : Sys) (d : Nat), d ∈ s.newDepIds → addDep w s d = s) ∧
    (∀ (w : Nat) (s : Sys) (d : Nat), d ∉ s.newDepIds → d ∈ s.depIds →
        (addDep w s d).subs = s.subs) ∧
    (∀ (w : Nat) (s : Sys) (d : Nat), d ∉ s.newDepIds → d ∉ s.depIds →
        (addDep w s d).subs d = s.subs d ++ [w]) ∧
    (∀ (w : Nat) (s : Sys) (reads : List Nat) (d : Nat), Between w s →
        ((runGetter w reads s).subs d).count w ≤ 1) := by
  refine ⟨?_, ?_, ?_, ?_⟩
  · intro w s d h
    exact addDep_eq_of_mem w h
  · intro w s d h1 h2
    rw [addDep_eq_of_mem_depIds w h1 h2]
  · intro w s d h1 h2
    rw [addDep_eq_of_not_mem w h1 h2]
    simp
  · intro w s reads d h
    obtain ⟨hB, _⟩ := runGetter_between reads s h
    rw [hB.2.2.2.2 d]
    split
    · exact le_refl 1
    · exact Nat.zero_le 1

/-- Witness for C4: a pass with repeated reads of dep 0 (within the pass and
across passes) leaves a single subscription. -/
theorem watcher_subscribes_at_most_once_witness :
    ((runGetter 0 [0, 0, 1, 0] (runGetter 0 [0] initSys)).subs 0).count 0 ≤ 1 := by
  have h0 : Between 0 initSys :=
    ⟨rfl, rfl, rfl, List.nodup_nil, fun d => by simp [initSys]⟩
  have h1 : Between 0 (runGetter 0 [0] initSys) := (runGetter_between [0] initSys h0).1
  exact watcher_subscribes_at_most_once.2.2.2 0 (runGetter 0 [0] initSys) [0, 0, 1, 0] 0 h1

/-- C2: for an active watcher, run fires the callback with (newValue,
oldValue) exactly when the new value differs under strict equality from the
stored one, or is an object/array, or the watcher is deep (in which case the
stored value is replaced); otherwise, and for an inactive watcher, run does
nothing. -/
theorem run_fires_iff (w : RunWatcher) (v : Value) :
    (w.active = false → run w v = { st := w, fired := none }) ∧
    (w.active = true →
      ((run w v).fired = some (v, w.value) ↔
        (strictEq v w.value = false ∨ isObject v = true ∨ w.deep = true)) ∧
      ((strictEq v w.value = false ∨ isObject v = true ∨ w.deep = true) →
        (run w v).st.value = v) ∧
      (¬(strictEq v w.value = false ∨ isObject v = true ∨ w.deep = true) →
        run w v = { st := w, fired := none })) := by
  have hb : ((!strictEq v w.value || isObject v || w.deep) = true) ↔
      (strictEq v w.value = false ∨ isObject v = true ∨ w.deep = true) := by
    simp [Bool.or_eq_true, Bool.not_eq_true', or_assoc]
  constructor
  · intro h
    simp [run, h]
  · intro ha
    by_cases hc : (!strictEq v w.value || isObject v || w.deep) = true
    · have hrun : run w v =
          { st := { w with value := v }, fired := some (v, w.value) } := by
        simp [run, ha, hc]
      refine ⟨?_, fun _ => ?_, fun h => absurd (hb.1 hc) h⟩
      · rw [hrun]
        exact iff_of_true rfl (hb.1 hc)
      · rw [hrun]
    · have hnd : ¬(strictEq v w.value = false ∨ isObject v = true ∨ w.deep = true) :=
        fun h => hc (hb.2 h)
      have hrun : run w v = { st := w, fired := none } := by
        simp [run, ha, hc]
      refine ⟨?_, fun h => absurd h hnd, fun _ => hrun⟩
      rw [hrun]
      exact iff_of_false (by simp) hnd

/-- Witness for C2: an active shallow watcher over primitives fires exactly
on a changed value, and an inactive one does nothing. -/
theorem run_fires_iff_witness :
    (run { active := true, deep := false, user := false, value := Value.prim 1 }
        (Value.prim 2)).fired = some (Value.prim 2, Value.prim 1) ∧
    run { active := false, deep := false, user := false, value := Value.prim 1 }
        (Value.prim 2) =
      { st := { active := false, deep := false, user := false, value := Value.prim 1 },
        fired := none } :=
  ⟨((run_fires_iff { active := true, deep := false, user := false, value := Value.prim 1 }
        (Value.prim 2)).2 rfl).1.2 (Or.inl (by decide)),
    (run_fires_iff { active := false, deep := false, user := false, value := Value.prim 1 }
        (Value.prim 2)).1 rfl⟩

/-- C3 counterexample: a reactive property defined over a pre-existing getter
without setter.  Writing 1 over the current value 0 does not short-circuit
(the values differ under strict equality and neither is NaN), yet the write
stores nothing and performs zero notifications — contradicting the claim
that every non-short-circuited write is stored and triggers exactly one
notifyAll. -/
theorem reactiveSetter_accessor_counterexample :
    strictEq (Value.prim 1)
        (propValue { hasGetter := true, hasSetter := false, backing := Value.prim 0,
                     val := Value.undef, childObserved := false }) = false ∧
    Value.prim 1 ≠ Value.nan ∧
    reactiveSetter { hasGetter := true, hasSetter := false, backing := Value.prim 0,
                     val := Value.undef, childObserved := false } (Value.prim 1) =
      ({ hasGetter := true, hasSetter := false, backing := Value.prim 0,
         val := Value.undef, childObserved := false }, 0) := by
  decide

/-- C3 (amended): the short-circuit branch (strict-equal values, or NaN over
NaN) is a complete no-op with zero notifications; otherwise, unless the
property was defined over a pre-existing getter without setter (in which case
the write is also a complete no-op with zero notifications), the new value is
stored, re-wrapped when it is a container, and exactly one notifyAll is
performed. -/
theorem reactiveSetter_notify_behavior (p : RProp) (v : Value) :
    (scBool p v = true → reactiveSetter p v = (p, 0)) ∧
    (scBool p v = false → p.hasGetter = true → p.hasSetter = false →
        reactiveSetter p v = (p, 0)) ∧
    (scBool p v = false → (p.hasGetter && !p.hasSetter) = false →
        storedVal (reactiveSetter p v).1 = v ∧
        (reactiveSetter p v).1.childObserved = isContainer v ∧
        (reactiveSetter p v).2 = 1) := by
  refine ⟨?_, ?_, ?_⟩
  · intro h
    simp only [scBool] at h
    simp [reactiveSetter, h]
  · intro h hg hs
    simp only [scBool] at h
    simp [reactiveSetter, h, hg, hs]
  · intro h hgs
    simp only [scBool] at h
    by_cases hs : p.hasSetter
    · simp [reactiveSetter, h, hgs, storedVal, hs]
    · have hs2 : p.hasSetter = false := by simpa using hs
      have hg2 : p.hasGetter = false := by
        rw [hs2] at hgs
        simpa using hgs
      simp [reactiveSetter, h, storedVal, hs2, hg2]

/-- Witness for C3 (amended): writing the same primitive is suppressed with
zero notifications; writing a different primitive to a plain data property
stores it and notifies exactly once. -/
theorem reactiveSetter_notify_behavior_witness :
    reactiveSetter { hasGetter := false, hasSetter := false, backing := Value.undef,
                     val := Value.prim 5, childObserved := false } (Value.prim 5) =
      ({ hasGetter := false, hasSetter := false, backing := Value.undef,
         val := Value.prim 5, childObserved := false }, 0) ∧
    (reactiveSetter { hasGetter := false, hasSetter := false, backing := Value.undef,
                      val := Value.prim 5, childObserved := false } (Value.prim 6)).2 = 1 :=
  ⟨(reactiveSetter_notify_behavior
        { hasGetter := false, hasSetter := false, backing := Value.undef,
          val := Value.prim 5, childObserved := false }
        (Value.prim 5)).1 (by decide),
    ((reactiveSetter_notify_behavior
        { hasGetter := false, hasSetter := false, backing := Value.undef,
          val := Value.prim 5, childObserved := false }
        (Value.prim 6)).2.2 (by decide) (by decide)).2.2⟩

/-- C9: for a reactive property defined over a pre-existing accessor with a
getter but no setter, a write whose comparison does not short-circuit is
still a complete no-op: the property state (stored values, child wrapping)
is unchanged and zero notifications are performed. -/
theorem reactiveSetter_getter_without_setter (p : RProp) (v : Value)
    (hg : p.hasGetter = true) (hs : p.hasSetter = false) (hsc : scBool p v = false) :
    (reactiveSetter p v).1 = p ∧ (reactiveSetter p v).2 = 0 := by
  simp only [scBool] at hsc
  simp [reactiveSetter, hsc, hg, hs]

/-- Witness for C9: a getter-only property holding 0, written with 3. -/
theorem reactiveSetter_getter_without_setter_witness :
    (reactiveSetter { hasGetter := true, hasSetter := false, backing := Value.prim 0,
                      val := Value.undef, childObserved := false } (Value.prim 3)).1 =
      { hasGetter := true, hasSetter := false, backing := Value.prim 0,
        val := Value.undef, childObserved := false } ∧
    (reactiveSetter { hasGetter := true, hasSetter := false, backing := Value.prim 0,
                      val := Value.undef, childObserved := false } (Value.prim 3)).2 = 0 :=
  reactiveSetter_getter_without_setter _ _ rfl rfl (by decide)

/-- C6: when the evaluation function throws inside Watcher.get, a user
watcher catches the exception and routes it to handleError (get returns
normally, with value undefined), while a non-user watcher propagates it; on
both paths the stored this.value is untouched and the finally clause still
reconciles the subscriptions (cleanupDeps). -/
theorem watcherGet_error_handling (w : Nat) (st : GetWatcher) (reads : List Nat) :
    (st.user = true →
        (watcherGet w st (GetterOutcome.err reads)).1 = Except.ok Value.undef ∧
        (watcherGet w st (GetterOutcome.err reads)).2.1 = true) ∧
    (st.user = false →
        (watcherGet w st (GetterOutcome.err reads)).1 = Except.error ()) ∧
    (watcherGet w st (GetterOutcome.err reads)).2.2.value = st.value ∧
    (watcherGet w st (GetterOutcome.err reads)).2.2.sys = runGetter w reads st.sys := by
  refine ⟨fun h => ?_, fun h => ?_, ?_, ?_⟩
  · simp [watcherGet, h]
  · simp [watcherGet, h]
  · by_cases h : st.user <;> simp [watcherGet, h]
  · by_cases h : st.user <;> simp [watcherGet, h]

/-- Witness for C6: a user watcher whose getter throws keeps its stored value
and returns normally. -/
theorem watcherGet_error_handling_witness :
    (watcherGet 0 { user := true, value := Value.prim 5, sys := initSys }
        (GetterOutcome.err [2])).1 = Except.ok Value.undef ∧
    (watcherGet 0 { user := true, value := Value.prim 5, sys := initSys }
        (GetterOutcome.err [2])).2.2.value = Value.prim 5 :=
  ⟨((watcherGet_error_handling 0 { user := true, value := Value.prim 5, sys := initSys }
      [2]).1 rfl).1,
    (watcherGet_error_handling 0 { user := true, value := Value.prim 5, sys := initSys }
      [2]).2.2.1⟩

/-- C10: for a non-array target and a key that is not an own property of the
target (in particular one found only on its prototype chain, which hasOwn
ignores), del returns without deleting anything and without notifying: the
target is unchanged and zero notifications are performed. -/
theorem del_missing_key_noop (t : DelTarget) (k : Nat)
    (ha : t.isArray = false) (hk : k ∉ t.ownKeys) :
    del t k = (t, 0) := by
  simp [del, ha, hk]

/-- Witness for C10: a key present only on the prototype chain of an observed
object is a complete no-op for del. -/
lemma insertPosAux_gt_index (q : List Nat) (index wid : Nat) :
    ∀ i, index ≤ i → index < insertPosAux q index wid i := by
  intro i
  induction i with
  | zero =>
      intro h
      rw [insertPosAux]
      omega
  | succ i ih =>
      intro h
      rw [insertPosAux]
      split
      · next hcond => exact ih (by omega)
      · omega

lemma insertPosAux_le (q : List Nat) (index wid : Nat) :
    ∀ i, insertPosAux q index wid i ≤ i + 1 := by
  intro i
  induction i with
  | zero =>
      rw [insertPosAux]
  | succ i ih =>
      rw [insertPosAux]
      split
      · exact le_trans ih (by omega)
      · omega

lemma insertPosAux_skipped (q : List Nat) (index wid : Nat) :
    ∀ i j, insertPosAux q index wid i ≤ j → j ≤ i → wid < q.getD j 0 := by
  intro i
  induction i with
  | zero =>
      intro j h1 h2
      rw [insertPosAux] at h1
      omega
  | succ i ih =>
      intro j h1 h2
      by_cases hcond : index < i + 1 ∧ wid < q.getD (i + 1) 0
      · rw [insertPosAux, if_pos hcond] at h1
        rcases Nat.lt_or_ge j (i + 1) with hj | hj
        · exact ih j h1 (by omega)
        · have hj2 : j = i + 1 := by omega
          rw [hj2]
          exact hcond.2
      · rw [insertPosAux, if_neg hcond] at h1
        omega

lemma insertPosAux_stop (q : List Nat) (index wid : Nat) :
    ∀ i, index ≤ i →
      insertPosAux q index wid i = index + 1 ∨
        q.getD (insertPosAux q index wid i - 1) 0 ≤ wid := by
  intro i
  induction i with
  | zero =>
      intro h
      left
      have h0 : index = 0 := Nat.le_zero.1 h
      rw [insertPosAux, h0]
  | succ i ih =>
      intro h
      by_cases hcond : index < i + 1 ∧ wid < q.getD (i + 1) 0
      · rw [insertPosAux, if_pos hcond]
        exact ih (by omega)
      · rw [insertPosAux, if_neg hcond]
        push_neg at hcond
        rcases Nat.lt_or_ge index (i + 1) with hlt | hge
        · right
          simpa using hcond hlt
        · left
          omega

lemma insertPos_spec (q : List Nat) (index wid : Nat) (h : index < q.length) :
    index < insertPos q index wid ∧
      insertPos q index wid ≤ q.length ∧
      (∀ j, insertPos q index wid ≤ j → j < q.length → wid < q.getD j 0) ∧
      (insertPos q index wid = index + 1 ∨
        q.getD (insertPos q index wid - 1) 0 ≤ wid) := by
  rcases hq : q.length with _ | n
  · omega
  · have hidx : index ≤ n := by omega
    have hrw : insertPos q index wid = insertPosAux q index wid n := by
      simp only [insertPos, hq]
    rw [hrw]
    exact ⟨insertPosAux_gt_index q index wid n hidx,
      le_trans (insertPosAux_le q index wid n) (by omega),
      fun j h1 h2 => insertPosAux_skipped q index wid n j h1 (by omega),
      insertPosAux_stop q index wid n hidx⟩

lemma insertPos_eq_index_succ (q : List Nat) (index wid : Nat) (h : index < q.length)
    (hall : ∀ j, index < j → j < q.length → wid < q.getD j 0) :
    insertPos q index wid = index + 1 := by
  obtain ⟨h1, h2, h3, h4⟩ := insertPos_spec q index wid h
  rcases h4 with h4 | h4
  · exact h4
  · by_cases hp : insertPos q index wid = index + 1
    · exact hp
    · have hgt : index < insertPos q index wid - 1 := by omega
      have hlt : insertPos q index wid - 1 < q.length := by omega
      exact absurd (hall _ hgt hlt) (by omega)

lemma queueWatcher_eq_of_mem {s : Sched} {wid : Nat} (h : wid ∈ s.has) :
    queueWatcher wid s = s := by
  simp [queueWatcher, h]

lemma queueWatcher_has (wid : Nat) (s : Sched) :
    (queueWatcher wid s).has = if wid ∈ s.has then s.has else wid :: s.has := by
  by_cases h : wid ∈ s.has
  · simp [queueWatcher, h]
  · by_cases hf : s.flushing <;> by_cases hw : s.waiting <;>
      simp [queueWatcher, h, hf, hw]

lemma queueWatcher_idem (wid : Nat) (s : Sched) :
    queueWatcher wid (queueWatcher wid s) = queueWatcher wid s := by
  by_cases h : wid ∈ s.has
  · rw [queueWatcher_eq_of_mem h, queueWatcher_eq_of_mem h]
  · apply queueWatcher_eq_of_mem
    rw [queueWatcher_has, if_neg h]
    exact List.mem_cons_self _ _

lemma queueWatcher_queue_append {s : Sched} {wid : Nat} (h1 : wid ∉ s.has)
    (h2 : s.flushing = false) :
    (queueWatcher wid s).queue = s.queue ++ [wid] := by
  by_cases hw : s.waiting <;> simp [queueWatcher, h1, h2, hw]

lemma queueWatcher_queue_splice {s : Sched} {wid : Nat} (h1 : wid ∉ s.has)
    (h2 : s.flushing = true) :
    (queueWatcher wid s).queue = insertAt (insertPos s.queue s.index wid) wid s.queue := by
  by_cases hw : s.waiting <;> simp [queueWatcher, h1, h2, hw]

lemma queueWatcher_circular (wid : Nat) (s : Sched) :
    (queueWatcher wid s).circular = s.circular := by
  by_cases h : wid ∈ s.has
  · simp [queueWatcher, h]
  · by_cases hf : s.flushing <;> by_cases hw : s.waiting <;>
      simp [queueWatcher, h, hf, hw]

lemma runEffects_circular (ids : List Nat) :
    ∀ s : Sched, (runEffects ids s).circular = s.circular := by
  induction ids with
  | nil => intro s; rfl
  | cons i t ih =>
      intro s
      show (List.foldl _ (queueWatcher i s) t).circular = _
      have ht := ih (queueWatcher i s)
      rw [runEffects] at ht
      rw [ht, queueWatcher_circular]

theorem del_missing_key_noop_witness :
    del { isArray := false, elems := [], ownKeys := [1, 2], protoKeys := [7],
          isVue := false, hasOb := true, vmCount := 0 } 7 =
      ({ isArray := false, elems := [], ownKeys := [1, 2], protoKeys := [7],
         isVue := false, hasOb := true, vmCount := 0 }, 0) :=
  del_missing_key_noop _ 7 rfl (by decide)

/-- C5: queueWatcher deduplicates through the has membership set — enqueueing
an id already marked is a no-op, queueWatcher is idempotent, and N repeated
enqueues from one synchronous burst leave exactly one queue entry; outside a
flush the watcher is appended at the end of the queue; during a flush it is
spliced after the current index, behind every not-yet-run entry of smaller or
equal id and ahead of all larger ones (so larger-id work spawned mid-flush
still runs in this flush), and immediately next (at index + 1) when its id is
smaller than everything left in the queue. -/
theorem queueWatcher_dedup_and_position :
    (∀ (s : Sched) (wid : Nat), wid ∈ s.has → queueWatcher wid s = s) ∧
    (∀ (s : Sched) (wid : Nat),
        queueWatcher wid (queueWatcher wid s) = queueWatcher wid s) ∧
    (∀ (s : Sched) (wid n : Nat), wid ∉ s.has → s.flushing = false →
        wid ∉ s.queue →
        ((queueWatcher wid)^[n + 1] s).queue.count wid = 1) ∧
    (∀ (s : Sched) (wid : Nat), wid ∉ s.has → s.flushing = false →
        (queueWatcher wid s).queue = s.queue ++ [wid]) ∧
    (∀ (s : Sched) (wid : Nat), wid ∉ s.has → s.flushing = true →
        s.index < s.queue.length →
        (queueWatcher wid s).queue =
          insertAt (insertPos s.queue s.index wid) wid s.queue ∧
        s.index < insertPos s.queue s.index wid ∧
        insertPos s.queue s.index wid ≤ s.queue.length ∧
        (∀ j, insertPos s.queue s.index wid ≤ j → j < s.queue.length →
            wid < s.queue.getD j 0) ∧
        ((∀ j, s.index < j → j < s.queue.length → wid < s.queue.getD j 0) →
            insertPos s.queue s.index wid = s.index + 1)) := by
  refine ⟨?_, ?_, ?_, ?_, ?_⟩
  · intro s wid h
    exact queueWatcher_eq_of_mem h
  · intro s wid
    exact queueWatcher_idem wid s
  · intro s wid n h1 h2 h3
    have hiter : (queueWatcher wid)^[n + 1] s = queueWatcher wid s := by
      induction n with
      | zero => rfl
      | succ n ih =>
          rw [Function.iterate_succ_apply', ih, queueWatcher_idem]
    rw [hiter, queueWatcher_queue_append h1 h2, List.count_append,
      List.count_eq_zero.2 h3]
    simp
  · intro s wid h1 h2
    exact queueWatcher_queue_append h1 h2
  · intro s wid h1 h2 h3
    obtain ⟨p1, p2, p3, p4⟩ := insertPos_spec s.queue s.index wid h3
    exact ⟨queueWatcher_queue_splice h1 h2, p1, p2, p3,
      fun hall => insertPos_eq_index_succ s.queue s.index wid h3 hall⟩

/-- Witness for C5: three repeated enqueues of watcher 2 outside a flush
leave one queue entry; during a flush of queue 1,3 at index 0, watcher 2 is
spliced at position 1, immediately after the running watcher. -/
theorem queueWatcher_dedup_and_position_witness :
    ((queueWatcher 2)^[3]
        { queue := [1], has := [1], circular := fun _ => 0, index := 0,
          flushing := false, waiting := true,
          activatedChildren := [] } : Sched).queue.count 2 = 1 ∧
    (queueWatcher 2
        { queue := [1, 3], has := [1, 3], circular := fun _ => 0, index := 0,
          flushing := true, waiting := true,
          activatedChildren := [] } : Sched).queue =
      insertAt (insertPos [1, 3] 0 2) 2 [1, 3] ∧
    insertPos [1, 3] 0 2 = 0 + 1 :=
  ⟨queueWatcher_dedup_and_position.2.2.1
      { queue := [1], has := [1], circular := fun _ => 0, index := 0,
        flushing := false, waiting := true, activatedChildren := [] }
      2 2 (by decide) rfl (by decide),
    (queueWatcher_dedup_and_position.2.2.2.2
      { queue := [1, 3], has := [1, 3], circular := fun _ => 0, index := 0,
        flushing := true, waiting := true, activatedChildren := [] }
      2 (by decide) rfl (by decide)).1,
    (queueWatcher_dedup_and_position.2.2.2.2
      { queue := [1, 3], has := [1, 3], circular := fun _ => 0, index := 0,
        flushing := true, waiting := true, activatedChildren := [] }
      2 (by decide) rfl (by decide)).2.2.2.2 (by
        intro j hj1 hj2
        have hj1b : 0 < j := hj1
        have hj2b : j < 2 := hj2
        have hj : j = 1 := by omega
        subst hj
        decide)⟩

lemma callUpdatedHooks_eq (q : List UpdWatcher) :
    callUpdatedHooks q = q.reverse.filterMap updEmit := by
  induction q with
  | nil => rfl
  | cons w rest ih =>
      rw [callUpdatedHooks, ih, List.reverse_cons, List.filterMap_append]
      cases h : updEmit w <;> simp [h]

lemma callActivatedHooks_eq (q : List Nat) : callActivatedHooks q = q := by
  induction q with
  | nil => rfl
  | cons v rest ih => rw [callActivatedHooks, ih]

/-- C7 counterexample: on the two-element activated snapshot 1, 2 the
activated hooks are invoked in forward queue order, not in reverse queue
order as the claim states for both hook sets. -/
theorem callActivatedHooks_forward_counterexample :
    callActivatedHooks [1, 2] = [1, 2] ∧ callActivatedHooks [1, 2] ≠ [2, 1] := by
  decide

/-- C7 (amended): after the flush loop completes, the scheduler state is
reset and both hook sets run over snapshots saved before the reset; the
updated hooks are invoked in reverse queue order (last queue entry first, on
entries that are their vm's render watcher with the vm mounted and not
destroyed), while the activated hooks are invoked in forward queue order
(first entry first). -/
theorem flush_hooks_order (effect : Nat → List Nat) (meta : Nat → UpdWatcher)
    (fuel : Nat) (s : Sched) :
    (flushScheduler effect meta fuel s).finalState = emptySched ∧
    (flushScheduler effect meta fuel s).activatedCalls =
      (flushLoop effect fuel (startFlush s)).1.activatedChildren ∧
    (flushScheduler effect meta fuel s).updatedCalls =
      ((flushLoop effect fuel (startFlush s)).1.queue.map meta).reverse.filterMap
        updEmit :=
  ⟨rfl, callActivatedHooks_eq _, callUpdatedHooks_eq _⟩

lemma flushLoop_circular_bound (effect : Nat → List Nat) :
    ∀ (fuel : Nat) (s : Sched), (∀ i, s.circular i ≤ MAX_UPDATE_COUNT) →
      (∀ i, (flushLoop effect fuel s).1.circular i ≤ MAX_UPDATE_COUNT + 1) ∧
      (∀ i, (flushLoop effect fuel s).1.circular i = MAX_UPDATE_COUNT + 1 →
        (flushLoop effect fuel s).2.2 = true) := by
  intro fuel
  induction fuel with
  | zero =>
      intro s h
      refine ⟨fun i => le_trans (h i) (by omega), fun i hi => ?_⟩
      have h0 := h i
      have hi2 : s.circular i = MAX_UPDATE_COUNT + 1 := hi
      exact absurd hi2 (by omega)
  | succ fuel ih =>
      intro s h
      by_cases h1 : s.index < s.queue.length
      · simp only [flushLoop, if_pos h1]
        set id := s.queue.getD s.index 0 with hid
        set s2 := runEffects (effect id) { s with has := s.has.erase id } with hs2
        have hc2 : s2.circular = s.circular := by
          rw [hs2, runEffects_circular]
        by_cases h2 : id ∈ s2.has
        · rw [if_pos h2]
          by_cases h3 : MAX_UPDATE_COUNT < s2.circular id + 1
          · rw [if_pos h3]
            refine ⟨fun i => ?_, fun i _ => rfl⟩
            show (if i = id then s2.circular id + 1 else s2.circular i) ≤ _
            have hbi := h i
            have hbid := h id
            rw [← hc2] at hbi hbid
            split <;> omega
          · rw [if_neg h3]
            have hinv : ∀ i,
                ({ s2 with
                    circular := fun x => if x = id then s2.circular id + 1
                      else s2.circular x,
                    index := s2.index + 1 } : Sched).circular i ≤
                  MAX_UPDATE_COUNT := by
              intro i
              show (if i = id then s2.circular id + 1 else s2.circular i) ≤ _
              have hbi := h i
              rw [← hc2] at hbi
              split <;> omega
            obtain ⟨ihb, ihw⟩ := ih _ hinv
            exact ⟨fun i => ihb i, fun i hi => ihw i hi⟩
        · rw [if_neg h2]
          have hinv : ∀ i,
              ({ s2 with index := s2.index + 1 } : Sched).circular i ≤
                MAX_UPDATE_COUNT := by
            intro i
            show s2.circular i ≤ _
            rw [hc2]
            exact h i
          obtain ⟨ihb, ihw⟩ := ih _ hinv
          exact ⟨fun i => ihb i, fun i hi => ihw i hi⟩
      · simp only [flushLoop, if_neg h1]
        refine ⟨fun i => le_trans (h i) (by omega), fun i hi => ?_⟩
        have h0 := h i
        have hi2 : s.circular i = MAX_UPDATE_COUNT + 1 := hi
        exact absurd hi2 (by omega)

/-- A run effect where watcher 1 re-triggers itself on every run and watcher
2 triggers nothing. -/
def selfEffect : Nat → List Nat := fun i => if i = 1 then [1] else []

/-- A mid-flush scheduler state with watchers 1 and 2 pending and the flush
about to run watcher 1. -/
def selfStart : Sched :=
  { queue := [1, 2], has := [1, 2], circular := fun _ => 0, index := 0,
    flushing := true, waiting := true, activatedChildren := [] }

/-- C8: in diagnostic mode the circular counters never pass
MAX_UPDATE_COUNT + 1 in one flush, and a counter reaching that ceiling means
the flush warned and aborted; concretely, a watcher that re-triggers itself
on every run is run exactly MAX_UPDATE_COUNT + 1 times (its first run plus
MAX_UPDATE_COUNT self-re-triggered re-runs), after which the flush warns and
abandons the rest of the queue — watcher 2, still pending, is never run. -/
theorem flush_circular_ceiling :
    (∀ (effect : Nat → List Nat) (fuel : Nat) (s : Sched),
        (∀ i, s.circular i ≤ MAX_UPDATE_COUNT) →
        (∀ i, (flushLoop effect fuel s).1.circular i ≤ MAX_UPDATE_COUNT + 1) ∧
        (∀ i, (flushLoop effect fuel s).1.circular i = MAX_UPDATE_COUNT + 1 →
          (flushLoop effect fuel s).2.2 = true)) ∧
    ((flushLoop selfEffect 200 selfStart).2.2 = true ∧
      (flushLoop selfEffect 200 selfStart).2.1.count 1 = MAX_UPDATE_COUNT + 1 ∧
      2 ∉ (flushLoop selfEffect 200 selfStart).2.1 ∧
      (flushLoop selfEffect 200 selfStart).1.circular 1 = MAX_UPDATE_COUNT + 1) := by
  constructor
  · intro effect fuel s hlt
    exact flushLoop_circular_bound effect fuel s hlt
  · refine ⟨?_, ?_, ?_, ?_⟩
    · set_option maxRecDepth 10000 in decide
    · set_option maxRecDepth 10000 in decide
    · set_option maxRecDepth 10000 in decide
    · set_option maxRecDepth 10000 in decide

/-- Witness for C8: the counter bound applied to a concrete effect-free flush
from the self-trigger start state. -/
theorem flush_circular_ceiling_witness :
    (flushLoop (fun _ => []) 1 selfStart).1.circular 1 ≤ MAX_UPDATE_COUNT + 1 :=
  (flush_circular_ceiling.1 (fun _ => []) 1 selfStart fun _ => Nat.zero_le _).1 1
